import Mathlib

/-!
Verification of the agent/protocol core of the `mash` repository: a shallow
embedding of the agent loop (src/core/agent.rs), the Anthropic transport
(src/core/api.rs), the local shell tool (src/core/tools.rs) and the MCP
client/manager layer (src/core/mcp.rs), with theorems settling the frozen
claims about them.
-/

namespace Mash

/-! ## JSON values (model of serde_json::Value) -/

inductive Json where
  | null
  | bool (b : Bool)
  | num (n : Int)
  | str (s : String)
  | arr (xs : List Json)
  | obj (fields : List (String × Json))

/-- `Value::get(key)`: `Some` only on objects that carry the key. -/
def Json.get (j : Json) (key : String) : Option Json :=
  match j with
  | .obj fields => fields.lookup key
  | _ => none

/-- `value[key]` indexing: yields `Null` on non-objects and absent keys. -/
def Json.index (j : Json) (key : String) : Json :=
  (j.get key).getD .null

/-- `Value::as_str`. -/
def Json.asStr : Json → Option String
  | .str s => some s
  | _ => none

/-- `Value::as_u64`: a number representable as an unsigned 64-bit integer. -/
def Json.asU64 : Json → Option Nat
  | .num n => if 0 ≤ n ∧ n < 2 ^ 64 then some n.toNat else none
  | _ => none

mutual

/-- Compact serialization, modelling the `Display` form of a
`serde_json::Value` (string escaping elided). -/
def Json.render : Json → String
  | .null => "null"
  | .bool true => "true"
  | .bool false => "false"
  | .num n => toString n
  | .str s => "\x22" ++ s ++ "\x22"
  | .arr xs => "[" ++ Json.renderList xs ++ "]"
  | .obj fs => "\x7b" ++ Json.renderObj fs ++ "\x7d"

/-- Comma-joined renderings of array elements. -/
def Json.renderList : List Json → String
  | [] => ""
  | [x] => x.render
  | x :: y :: xs => x.render ++ "," ++ Json.renderList (y :: xs)

/-- Comma-joined renderings of object members. -/
def Json.renderObj : List (String × Json) → String
  | [] => ""
  | [(k, v)] => "\x22" ++ k ++ "\x22:" ++ v.render
  | (k, v) :: f :: fs =>
      "\x22" ++ k ++ "\x22:" ++ v.render ++ "," ++ Json.renderObj (f :: fs)

end

/-! ## Content blocks and messages (src/core/api.rs) -/

inductive ContentBlock where
  | text (text : String)
  | toolUse (id : String) (name : String) (input : Json)
  | toolResult (toolUseId : String) (content : String) (isError : Option Bool)

inductive MessageContent where
  | text (s : String)
  | blocks (bs : List ContentBlock)

structure Message where
  role : String
  content : MessageContent

/-! ## Local shell tool (src/core/tools.rs) -/

/-- Captured output of the spawned `bash -c command` process: stdout, stderr,
and the exit code (`ExitStatus::code()`, `none` when killed by a signal). -/
structure BashOutput where
  stdout : String
  stderr : String
  code : Option Int

/-- `ExitStatus::success()` on Unix: exit code 0. -/
def statusSuccess (o : BashOutput) : Bool := o.code = some 0

/-- Result-text composition of `exec_bash` (src/core/tools.rs lines 38-58),
applied to the captured process output. -/
def composeBashResult (o : BashOutput) : String :=
  let result := ""
  let result := if o.stdout ≠ "" then result ++ o.stdout else result
  let result :=
    if o.stderr ≠ "" then
      (if result ≠ "" then result ++ "\n" else result) ++ "[stderr]\n" ++ o.stderr
    else result
  if statusSuccess o then result
  else result ++ "\n[exit code: " ++ toString (o.code.getD (-1)) ++ "]"

/-- `exec_bash` (src/core/tools.rs lines 33-59). The process spawn itself is
the parameter `run` (`Command::output()`); a spawn failure is the `.error`
case of `run`, propagated by the `?` operator. The executed command string is
`input["command"].as_str().unwrap_or_default()`. -/
def execBash (run : String → Except String BashOutput) (input : Json) :
    Except String String :=
  let command := ((input.index "command").asStr).getD ""
  (run command).map composeBashResult

/-- `tools::execute` (src/core/tools.rs lines 26-31): only the name "bash" is
known locally; any other name yields the success text "Unknown tool: name". -/
def toolsExecute (run : String → Except String BashOutput) (name : String)
    (input : Json) : Except String String :=
  if name = "bash" then execBash run input
  else .ok ("Unknown tool: " ++ name)

/-! ## Agent loop (src/core/agent.rs) -/

/-- The tool calls collected by the classification pass of `run_agent_loop`
(lines 48-68): every ToolUse block, in received order, as (id, name, input). -/
def toolCallsOf (blocks : List ContentBlock) : List (String × String × Json) :=
  blocks.filterMap fun b =>
    match b with
    | .toolUse id name input => some (id, name, input)
    | _ => none

/-- The ToolResult blocks built by the execution pass of `run_agent_loop`
(lines 85-100): one per tool call, `is_error = some true` exactly on failure. -/
def runToolCalls (run : String → Except String BashOutput)
    (calls : List (String × String × Json)) : List ContentBlock :=
  calls.map fun c =>
    match toolsExecute run c.2.1 c.2.2 with
    | .ok output => .toolResult c.1 output none
    | .error e => .toolResult c.1 e (some true)

/-- The messages appended to the conversation by one iteration of
`run_agent_loop` given the decoded response blocks and the pending user
inputs drained at the end of the iteration (lines 72-116): the assistant
message always; when there are tool calls, the user message of results and
then one user text message joining the pending inputs with blank lines. -/
def iterAppends (run : String → Except String BashOutput)
    (blocks : List ContentBlock) (pending : List String) : List Message :=
  let toolCalls := toolCallsOf blocks
  if toolCalls.isEmpty then
    [⟨"assistant", .blocks blocks⟩]
  else
    [⟨"assistant", .blocks blocks⟩,
     ⟨"user", .blocks (runToolCalls run toolCalls)⟩]
    ++ (if pending.isEmpty then []
        else [⟨"user", .text (String.intercalate "\n\n" pending)⟩])

/-- One loop iteration as seen from the conversation: a transport failure
(`client.send(...).await?`, line 43) aborts the iteration before anything is
appended; otherwise the iteration appends `iterAppends`. -/
def agentIterate (resp : Except String (List ContentBlock))
    (run : String → Except String BashOutput) (pending : List String) :
    Except String (List Message) :=
  match resp with
  | .error e => .error e
  | .ok blocks => .ok (iterAppends run blocks pending)

/-- One iteration of the loop: the response blocks it decoded and the pending
user inputs it drained. -/
structure AgentIter where
  blocks : List ContentBlock
  pending : List String

/-- A conversation built by running the loop: the initial messages followed by
each iteration's appends (the conversation is append-only, lines 73-115). -/
def runConv (run : String → Except String BashOutput) (init : List Message) :
    List AgentIter → List Message
  | [] => init
  | it :: rest => runConv run (init ++ iterAppends run it.blocks it.pending) rest

/-- Whether a content block is a ToolResult block. -/
def isToolResultBlock : ContentBlock → Bool
  | .toolResult _ _ _ => true
  | _ => false

/-- A message whose content is entirely (and non-vacuously) ToolResult blocks. -/
def toolResultOnly (m : Message) : Bool :=
  match m.content with
  | .blocks bs => !bs.isEmpty && bs.all isToolResultBlock
  | _ => false

/-- The ToolUse ids carried by a message, in order. -/
def msgToolUseIds (m : Message) : List String :=
  match m.content with
  | .blocks bs =>
      bs.filterMap fun b =>
        match b with
        | .toolUse id _ _ => some id
        | _ => none
  | _ => []

/-- The tool_use_id references carried by a message's ToolResult blocks. -/
def msgToolResultIds (m : Message) : List String :=
  match m.content with
  | .blocks bs =>
      bs.filterMap fun b =>
        match b with
        | .toolResult tid _ _ => some tid
        | _ => none
  | _ => []

/-- Model responses carry no ToolResult block (assistant turns are made of
Text and ToolUse blocks). -/
def noToolResultBlocks (bs : List ContentBlock) : Bool :=
  bs.all fun b => !isToolResultBlock b

/-- The adjacency invariant: every ToolResult-only message is immediately
preceded by a message whose ToolUse ids are exactly its referenced
tool_use_ids, in the same order. -/
def adjacencyOK (conv : List Message) : Prop :=
  ∀ i m, conv[i]? = some m → toolResultOnly m = true →
    0 < i ∧ ∃ p, conv[i - 1]? = some p ∧ msgToolUseIds p = msgToolResultIds m

/-! ## Transport (src/core/api.rs) -/

/-- An HTTP response as observed by `AnthropicClient::send`. -/
structure HttpResponse where
  status : Nat
  body : String

/-- `StatusCode::is_success()`: the 2xx range. -/
def isSuccessStatus (s : Nat) : Bool := 200 ≤ s && s ≤ 299

/-- `AnthropicClient::send` (src/core/api.rs lines 92-100) from the point the
HTTP response is in hand: a non-2xx status is a hard failure formatted
"API error (status): body" (the status text rendered by the model as the
numeric code, which the real Display form contains); a 2xx status decodes the
body (`decode` stands for `serde_json::from_str`, whose failure is the same
failure kind). One request only: no retry path exists. -/
def sendModel (decode : String → Except String (List ContentBlock))
    (resp : HttpResponse) : Except String (List ContentBlock) :=
  if isSuccessStatus resp.status then decode resp.body
  else .error ("API error (" ++ toString resp.status ++ "): " ++ resp.body)

/-- `needle` occurs contiguously inside `hay`. -/
def containsStr (hay needle : String) : Prop :=
  ∃ a b, hay.data = a ++ needle.data ++ b

/-! ## MCP name namespacing and routing (src/core/mcp.rs)

Rust string operations are modelled on character lists. -/

/-- The fixed namespace marker "mcp__". -/
def mcpPfx : List Char := ['m', 'c', 'p', '_', '_']

/-- The separator "__" between server and tool components. -/
def sepUU : List Char := ['_', '_']

/-- Whether `p` is an initial segment of `s`. -/
def isPfxOf : List Char → List Char → Bool
  | [], _ => true
  | _ :: _, [] => false
  | p :: ps, c :: cs => p == c && isPfxOf ps cs

/-- `str::strip_prefix`. -/
def stripPfx : List Char → List Char → Option (List Char)
  | [], s => some s
  | _ :: _, [] => none
  | p :: ps, c :: cs => if p = c then stripPfx ps cs else none

/-- `str::find(pat)` scanning from index `i`. -/
def findSubFrom : List Char → List Char → Nat → Option Nat
  | [], pat, i => if isPfxOf pat [] then some i else none
  | c :: t, pat, i => if isPfxOf pat (c :: t) then some i else findSubFrom t pat (i + 1)

/-- `str::find(pat)`: index of the first occurrence of `pat`. -/
def findSub (s pat : List Char) : Option Nat := findSubFrom s pat 0

/-- `str::contains(pat)`. -/
def containsSub : List Char → List Char → Bool
  | [], pat => isPfxOf pat []
  | c :: t, pat => isPfxOf pat (c :: t) || containsSub t pat

/-- The namespaced catalog name built by `McpManager::tool_definitions`
(src/core/mcp.rs line 254) and by the HTTP facade handler (line 389):
`format!("mcp__{}__{}", server, tool)`. -/
def nsFullName (server tool : List Char) : List Char :=
  mcpPfx ++ server ++ sepUU ++ tool

/-- The routing parse performed by `McpManager::call_tool`
(src/core/mcp.rs lines 264-273): strip the "mcp__" marker, split at the
first remaining "__" into server and tool. Either failure is the
"Invalid MCP tool name" routing error. -/
def parseMcpName (full : List Char) : Except String (List Char × List Char) :=
  match stripPfx mcpPfx full with
  | none => .error ("Invalid MCP tool name: " ++ String.mk full)
  | some rest =>
    match findSub rest sepUU with
    | none => .error ("Invalid MCP tool name: " ++ String.mk full)
    | some sep => .ok (rest.take sep, rest.drop (sep + 2))

/-- `McpManager::call_tool` (src/core/mcp.rs lines 263-281): parse the
namespaced name, look the server up among the live connections, and delegate
to that connection's call with the recovered tool name. A connection is
modelled as its `call_tool` behaviour. -/
def managerCallTool
    (clients : List (String × (List Char → Json → Except String String)))
    (fullName : List Char) (args : Json) : Except String String :=
  match parseMcpName fullName with
  | .error e => .error e
  | .ok (serverName, toolName) =>
    match clients.lookup (String.mk serverName) with
    | none => .error ("MCP server '" ++ String.mk serverName ++ "' not connected")
    | some call => call toolName args

/-! ## MCP response-read loop (src/core/mcp.rs, McpClient::send_request) -/

/-- A line arriving on the child's stdout, as the read loop classifies it:
empty (skipped before parsing), a line `serde_json::from_str` rejects, or a
parsed JSON message. -/
inductive RpcLine where
  | empty
  | invalid (raw : String)
  | msg (j : Json)

/-- `msg.get("id").and_then(|v| v.as_u64())`. -/
def jsonIdU64 (j : Json) : Option Nat := (j.get "id").bind Json.asU64

/-- The response-read loop of `McpClient::send_request`
(src/core/mcp.rs lines 103-117), reading classified lines until one carries
the request id: empty lines and parsed messages with a non-matching id are
skipped; an unparseable line propagates the serde error through `?`; a
matching message with an `error` member fails with that payload; a matching
message without one returns `msg["result"]`; end of stream fails with the
server-closed error. -/
def readLoop (name : String) (id : Nat) : List RpcLine → Except String Json
  | [] => .error ("MCP server '" ++ name ++ "' closed connection")
  | .empty :: rest => readLoop name id rest
  | .invalid raw :: _ => .error ("invalid JSON line: " ++ raw)
  | .msg j :: rest =>
    if jsonIdU64 j = some id then
      match j.get "error" with
      | some e => .error ("MCP error: " ++ e.render)
      | none => .ok (j.index "result")
    else readLoop name id rest

/-- A line the read loop passes over without effect when waiting for `id`:
an empty line, or a parsed message whose id does not match (notifications
carry no id at all). An unparseable line is not skippable: it aborts. -/
def skippableLine (id : Nat) : RpcLine → Bool
  | .empty => true
  | .invalid _ => false
  | .msg j => jsonIdU64 j != some id

/-! ## MCP tool catalog decoding (src/core/mcp.rs, McpClient::fetch_tools) -/

/-- The `McpTool` struct: name required, description optional, input schema
required (no serde default on `inputSchema`). -/
structure McpTool where
  name : String
  description : Option String
  inputSchema : Json

/-- Serde decoding of one `McpTool` from a JSON value. -/
def decodeMcpTool (j : Json) : Except String McpTool :=
  match j with
  | .obj _ =>
    match (j.get "name").bind Json.asStr with
    | none => .error "missing field name"
    | some n =>
      match j.get "inputSchema" with
      | none => .error "missing field inputSchema"
      | some schema =>
        match j.get "description" with
        | none => .ok ⟨n, none, schema⟩
        | some .null => .ok ⟨n, none, schema⟩
        | some (.str d) => .ok ⟨n, some d, schema⟩
        | some _ => .error "invalid type for description"
  | _ => .error "expected object"

/-- Serde decoding of `Vec<McpTool>`. -/
def decodeToolArray (j : Json) : Except String (List McpTool) :=
  match j with
  | .arr xs => xs.mapM decodeMcpTool
  | _ => .error "expected array"

/-- `McpClient::fetch_tools` (src/core/mcp.rs lines 150-155) applied to the
`tools/list` result value:
`serde_json::from_value(result.get("tools").cloned().unwrap_or(json!([])))`. -/
def fetchToolsDecode (result : Json) : Except String (List McpTool) :=
  decodeToolArray ((result.get "tools").getD (.arr []))

/-! ## Concrete inputs used to instantiate the theorems -/

/-- A shell runner whose every command exits cleanly with no output. -/
def quietRun : String → Except String BashOutput := fun _ => .ok ⟨"", "", some 0⟩

/-- A shell runner whose every spawn fails. -/
def failRun : String → Except String BashOutput := fun _ => .error "spawn failure"

/-- A response turn carrying one text block and one bash tool call. -/
def sampleBlocks : List ContentBlock :=
  [.text "running", .toolUse "t1" "bash" (Json.obj [("command", Json.str "true")])]

/-- A successful JSON-RPC response line for request id 1. -/
def goodLine : Json :=
  Json.obj [("jsonrpc", Json.str "2.0"), ("id", Json.num 1), ("result", Json.str "ok")]

/-- A notification line: valid JSON without an id. -/
def notifLine : Json :=
  Json.obj [("jsonrpc", Json.str "2.0"), ("method", Json.str "notifications/progress")]

/-- A successful JSON-RPC response line for request id 2. -/
def goodLine2 : Json :=
  Json.obj [("id", Json.num 2), ("result", Json.str "done")]

/-- One live connection named "git" whose call echoes the routed tool name. -/
def echoClients : List (String × (List Char → Json → Except String String)) :=
  [("git", fun t _ => .ok (String.mk t))]

/-! ## Theorems -/

/-- C4: the composed shell result is stdout (if non-empty), then a
"[stderr]" marker plus stderr (if non-empty), then a "\n[exit code: N]"
trailer exactly when the exit status is non-zero; in particular captured
output ("ok", "", exit 0) yields exactly "ok" with no stderr section and no
trailer, and captured output ("", "", exit 3) yields a result ending
"\n[exit code: 3]". -/
theorem bash_result_composition :
    (∀ o : BashOutput,
      composeBashResult o =
        (if o.stdout = "" then "" else o.stdout)
        ++ (if o.stderr = "" then ""
            else (if o.stdout = "" then "" else "\n") ++ "[stderr]\n" ++ o.stderr)
        ++ (if o.code = some 0 then ""
            else "\n[exit code: " ++ toString (o.code.getD (-1)) ++ "]"))
    ∧ composeBashResult ⟨"ok", "", some 0⟩ = "ok"
    ∧ ∃ pre, composeBashResult ⟨"", "", some 3⟩ = pre ++ "\n[exit code: 3]" := by
  refine ⟨?_, by decide, "", by decide⟩
  intro o
  by_cases h1 : o.stdout = "" <;> by_cases h2 : o.stderr = "" <;>
    by_cases h3 : o.code = some 0 <;>
    simp [composeBashResult, statusSuccess, h1, h2, h3, String.append_assoc,
      String.append_empty, String.empty_append]

/-- C10: when the shell-tool input carries no string "command" field, the
command defaults to the empty string: the empty shell command is run, and
with its usual outcome (no output, exit 0) the result is the successful
empty text. -/
theorem bash_missing_command (run : String → Except String BashOutput)
    (input : Json) (h : (input.index "command").asStr = none) :
    execBash run input = (run "").map composeBashResult
    ∧ (run "" = .ok ⟨"", "", some 0⟩ → execBash run input = .ok "") := by
  constructor
  · simp [execBash, h]
  · intro hrun
    simp [execBash, h, hrun]
    rfl

/-- Witness for C10 at the concrete input where "command" is a number. -/
theorem bash_missing_command_witness :
    ((Json.obj [("command", Json.num 5)]).index "command").asStr = none
    ∧ execBash quietRun (Json.obj [("command", Json.num 5)]) = .ok "" := by
  refine ⟨rfl, ?_⟩
  exact (bash_missing_command quietRun (Json.obj [("command", Json.num 5)]) rfl).2 rfl

/-- C9: a ToolUse block whose name is unknown to the local executor yields a
success with the text "Unknown tool: name", and the ToolResult the loop
appends for it carries no is_error flag. -/
theorem unknown_tool_success (run : String → Except String BashOutput)
    (id name : String) (input : Json) (rest : List (String × String × Json))
    (h : name ≠ "bash") :
    toolsExecute run name input = .ok ("Unknown tool: " ++ name)
    ∧ runToolCalls run ((id, name, input) :: rest)
      = .toolResult id ("Unknown tool: " ++ name) none :: runToolCalls run rest := by
  have hx : toolsExecute run name input = .ok ("Unknown tool: " ++ name) := by
    simp [toolsExecute, h]
  exact ⟨hx, by simp [runToolCalls, hx]⟩

/-- Witness for C9 at a concrete namespaced name. -/
theorem unknown_tool_success_witness :
    ("mcp__git__status" : String) ≠ "bash"
    ∧ toolsExecute quietRun "mcp__git__status" Json.null
      = .ok ("Unknown tool: " ++ "mcp__git__status") := by
  refine ⟨by decide, ?_⟩
  exact (unknown_tool_success quietRun "id1" "mcp__git__status" Json.null []
    (by decide)).1

/-- C8: a tools/list result with no "tools" member, or with an empty "tools"
array, decodes to the empty tool set rather than failing, so connection setup
proceeds with zero tools. -/
theorem fetch_tools_empty (result : Json)
    (h : result.get "tools" = none ∨ result.get "tools" = some (Json.arr [])) :
    fetchToolsDecode result = .ok [] := by
  cases h with
  | inl h => simp [fetchToolsDecode, h, decodeToolArray]; rfl
  | inr h => simp [fetchToolsDecode, h, decodeToolArray]; rfl

/-- Witness for C8 at a result without "tools" and a result with an empty
"tools" array. -/
theorem fetch_tools_empty_witness :
    ((Json.obj []).get "tools" = none
      ∨ (Json.obj []).get "tools" = some (Json.arr []))
    ∧ fetchToolsDecode (Json.obj []) = .ok []
    ∧ fetchToolsDecode (Json.obj [("tools", Json.arr [])]) = .ok [] := by
  refine ⟨Or.inl rfl, fetch_tools_empty _ (Or.inl rfl), fetch_tools_empty _ (Or.inr rfl)⟩

/-- C6 counterexample: at the concrete ToolUse ("id1", "mcp__git__status"),
the agent loop's executor returns the success text "Unknown tool: ..." with
no is_error flag: the namespaced call is never routed to the External Tool
Registry (no registry is reachable from `tools::execute`). -/
theorem external_tool_registry_cex :
    runToolCalls quietRun [("id1", "mcp__git__status", Json.null)]
      = [.toolResult "id1" ("Unknown tool: " ++ "mcp__git__status") none]
    ∧ toolsExecute quietRun "mcp__git__status" Json.null
      = .ok ("Unknown tool: " ++ "mcp__git__status") := by
  constructor <;> rfl

/-- C6 amended: a ToolUse whose name is not the local shell tool is answered
by the local executor itself with the success text "Unknown tool: name"
(external tools are reached through the shell tool calling the HTTP facade,
not by routing ToolUse names through the registry); and every failed
execution produces a ToolResult with the is_error flag set. -/
theorem external_tool_amended (run : String → Except String BashOutput)
    (id name : String) (input : Json) (rest : List (String × String × Json))
    (h : name ≠ "bash")
    (id2 name2 : String) (input2 : Json) (e : String)
    (herr : toolsExecute run name2 input2 = .error e) :
    runToolCalls run ((id, name, input) :: rest)
      = .toolResult id ("Unknown tool: " ++ name) none :: runToolCalls run rest
    ∧ runToolCalls run ((id2, name2, input2) :: rest)
      = .toolResult id2 e (some true) :: runToolCalls run rest := by
  constructor
  · have hx : toolsExecute run name input = .ok ("Unknown tool: " ++ name) := by
      simp [toolsExecute, h]
    simp [runToolCalls, hx]
  · simp [runToolCalls, herr]

/-- Witness for amended C6: the unknown external name, and a bash call whose
spawn fails, at concrete inputs. -/
theorem external_tool_amended_witness :
    ("mcp__git__status" : String) ≠ "bash"
    ∧ toolsExecute failRun "bash" Json.null = .error "spawn failure"
    ∧ runToolCalls failRun [("id1", "mcp__git__status", Json.null),
        ("id2", "bash", Json.null)]
      = [.toolResult "id1" ("Unknown tool: " ++ "mcp__git__status") none,
         .toolResult "id2" "spawn failure" (some true)] := by
  refine ⟨by decide, rfl, ?_⟩
  have h := external_tool_amended failRun "id1" "mcp__git__status" Json.null
    [("id2", "bash", Json.null)] (by decide) "id2" "bash" Json.null
    "spawn failure" rfl
  rw [h.1]
  have h2 := external_tool_amended failRun "id1" "mcp__git__status" Json.null
    [] (by decide) "id2" "bash" Json.null "spawn failure" rfl
  rw [h2.2]
  rfl

/-- C3: a non-2xx transport response is a hard failure whose message carries
the status code and the raw body verbatim, and the loop iteration fed that
failure terminates with it, appending no message at all for the turn. -/
theorem transport_non2xx_hard_failure
    (decode : String → Except String (List ContentBlock))
    (resp : HttpResponse) (h : isSuccessStatus resp.status = false)
    (run : String → Except String BashOutput) (pending : List String) :
    ∃ e, sendModel decode resp = .error e
      ∧ containsStr e (toString resp.status)
      ∧ containsStr e resp.body
      ∧ agentIterate (sendModel decode resp) run pending = .error e := by
  refine ⟨"API error (" ++ toString resp.status ++ "): " ++ resp.body,
    by simp [sendModel, h], ?_, ?_, by simp [agentIterate, sendModel, h]⟩
  · exact ⟨"API error (".data, ("): " ++ resp.body).data,
      by simp [String.data_append, List.append_assoc]⟩
  · exact ⟨("API error (" ++ toString resp.status ++ "): ").data, [],
      by simp [String.data_append, List.append_assoc]⟩

/-- Witness for C3: status 500 with body "boom". -/
theorem transport_non2xx_hard_failure_witness :
    isSuccessStatus 500 = false
    ∧ ∃ e, sendModel (fun _ => .error "decode failure") ⟨500, "boom"⟩ = .error e
      ∧ containsStr e (toString 500)
      ∧ containsStr e "boom"
      ∧ agentIterate (sendModel (fun _ => .error "decode failure") ⟨500, "boom"⟩)
          quietRun [] = .error e := by
  exact ⟨by decide, transport_non2xx_hard_failure (fun _ => .error "decode failure")
    ⟨500, "boom"⟩ (by decide) quietRun []⟩

/-- Stripping a marker from a list it starts recovers the remainder. -/
theorem stripPfx_append (p s : List Char) : stripPfx p (p ++ s) = some s := by
  induction p with
  | nil => rfl
  | cons c cs ih => simp [stripPfx, ih]

/-- In `server ++ "__" ++ tool`, the first occurrence of "__" is at position
`server.length`, provided the server name neither contains "__" nor ends
with '_'. -/
theorem findSubFrom_sep (server tool : List Char) (i : Nat)
    (hns : containsSub server sepUU = false)
    (hlast : server.getLast? ≠ some '_') :
    findSubFrom (server ++ sepUU ++ tool) sepUU i = some (i + server.length) := by
  induction server generalizing i with
  | nil => simp [findSubFrom, sepUU, isPfxOf]
  | cons c cs ih =>
    have hpfalse : isPfxOf sepUU (c :: cs) = false := by
      cases h : isPfxOf sepUU (c :: cs)
      · rfl
      · rw [containsSub, h] at hns
        simp at hns
    have hns2 : containsSub cs sepUU = false := by
      cases h : containsSub cs sepUU
      · rfl
      · rw [containsSub, h] at hns
        simp at hns
    have hnotpfx : isPfxOf sepUU (c :: (cs ++ (sepUU ++ tool))) = false := by
      by_cases hc : c = '_'
      · subst hc
        cases cs with
        | nil => exact absurd rfl hlast
        | cons c2 cs' =>
          by_cases hc2 : c2 = '_'
          · subst hc2
            simp [isPfxOf, sepUU] at hpfalse
          · have hbe : ('_' == c2) = false := by
              cases h : ('_' == c2)
              · rfl
              · exact absurd (eq_of_beq h).symm hc2
            simp [isPfxOf, sepUU, hbe]
      · have hbe : ('_' == c) = false := by
          cases h : ('_' == c)
          · rfl
          · exact absurd (eq_of_beq h).symm hc
        simp [isPfxOf, sepUU, hbe]
    have hlast' : cs.getLast? ≠ some '_' := by
      cases cs with
      | nil => simp
      | cons c2 cs' => simpa [List.getLast?_cons_cons] using hlast
    have ih' := ih (i + 1) hns2 hlast'
    simp only [List.cons_append, List.append_assoc] at ih' ⊢
    rw [findSubFrom.eq_def]
    simp only [hnotpfx, Bool.false_eq_true, if_false]
    rw [ih']
    congr 1
    simp [Nat.add_comm, Nat.add_assoc, Nat.add_left_comm]

/-- C2 counterexample: for server "a_" and tool "x" — neither of which
contains "__" — the namespaced name is "mcp__a___x", whose routing parse
splits at the first "__" (which begins inside the server's trailing '_') and
recovers ("a", "_x") instead of the original pair. -/
theorem ns_roundtrip_cex :
    containsSub ['a', '_'] sepUU = false
    ∧ containsSub ['x'] sepUU = false
    ∧ parseMcpName (nsFullName ['a', '_'] ['x']) = .ok (['a'], ['_', 'x'])
    ∧ (['a'], (['_', 'x'] : List Char)) ≠ ((['a', '_'], ['x']) : List Char × List Char) := by
  exact ⟨rfl, rfl, rfl, by decide⟩

/-- C2 amended: namespacing then routing-parsing a (server, tool) pair
recovers the original pair, for server and tool names not containing the
namespace separator "__", provided additionally that the server name does not
end with '_'. -/
theorem ns_roundtrip_amended (server tool : List Char)
    (hserver : containsSub server sepUU = false)
    (htool : containsSub tool sepUU = false)
    (hlast : server.getLast? ≠ some '_') :
    parseMcpName (nsFullName server tool) = .ok (server, tool) := by
  have hfind : findSub (server ++ sepUU ++ tool) sepUU = some server.length := by
    have := findSubFrom_sep server tool 0 hserver hlast
    simpa [findSub] using this
  unfold parseMcpName nsFullName
  rw [show mcpPfx ++ server ++ sepUU ++ tool = mcpPfx ++ (server ++ sepUU ++ tool) by
    simp]
  rw [stripPfx_append]
  dsimp only
  rw [hfind]
  dsimp only
  have htake : (server ++ sepUU ++ tool).take server.length = server := by
    rw [show server ++ sepUU ++ tool = server ++ (sepUU ++ tool) by simp]
    exact List.take_left server (sepUU ++ tool)
  have hdrop : (server ++ sepUU ++ tool).drop (server.length + 2) = tool := by
    rw [show server.length + 2 = (server ++ sepUU).length by simp [sepUU]]
    exact List.drop_left (server ++ sepUU) tool
  rw [htake, hdrop]

/-- Witness for amended C2 at server "git", tool "status". -/
theorem ns_roundtrip_amended_witness :
    containsSub ['g', 'i', 't'] sepUU = false
    ∧ containsSub ['s', 't', 'a', 't', 'u', 's'] sepUU = false
    ∧ (['g', 'i', 't'] : List Char).getLast? ≠ some '_'
    ∧ parseMcpName (nsFullName ['g', 'i', 't'] ['s', 't', 'a', 't', 'u', 's'])
      = .ok (['g', 'i', 't'], ['s', 't', 'a', 't', 'u', 's']) := by
  refine ⟨rfl, rfl, by decide, ?_⟩
  exact ns_roundtrip_amended ['g', 'i', 't'] ['s', 't', 'a', 't', 'u', 's']
    rfl rfl (by decide)

/-- C7: the registry call yields a routing error for a name without the fixed
marker, for a name lacking a separator after the marker, and for a
well-formed name whose server has no live connection; otherwise it delegates
to that server's connection with the recovered tool name. -/
theorem routing_errors
    (clients : List (String × (List Char → Json → Except String String)))
    (fullName : List Char) (args : Json) :
    (stripPfx mcpPfx fullName = none →
      managerCallTool clients fullName args
        = .error ("Invalid MCP tool name: " ++ String.mk fullName))
    ∧ (∀ rest, stripPfx mcpPfx fullName = some rest → findSub rest sepUU = none →
      managerCallTool clients fullName args
        = .error ("Invalid MCP tool name: " ++ String.mk fullName))
    ∧ (∀ server tool, parseMcpName fullName = .ok (server, tool) →
        clients.lookup (String.mk server) = none →
        managerCallTool clients fullName args
          = .error ("MCP server '" ++ String.mk server ++ "' not connected"))
    ∧ (∀ server tool call, parseMcpName fullName = .ok (server, tool) →
        clients.lookup (String.mk server) = some call →
        managerCallTool clients fullName args = call tool args) := by
  refine ⟨?_, ?_, ?_, ?_⟩
  · intro h
    simp [managerCallTool, parseMcpName, h]
  · intro rest h1 h2
    simp [managerCallTool, parseMcpName, h1, h2]
  · intro server tool h1 h2
    simp [managerCallTool, h1, h2]
  · intro server tool call h1 h2
    simp [managerCallTool, h1, h2]

/-- Witness for C7: the four routing outcomes at concrete names against the
single live connection "git". -/
theorem routing_errors_witness :
    (stripPfx mcpPfx (String.toList "shell") = none
      ∧ managerCallTool echoClients (String.toList "shell") Json.null
        = .error ("Invalid MCP tool name: " ++ String.mk (String.toList "shell")))
    ∧ (stripPfx mcpPfx (String.toList "mcp__git") = some (String.toList "git")
      ∧ findSub (String.toList "git") sepUU = none
      ∧ managerCallTool echoClients (String.toList "mcp__git") Json.null
        = .error ("Invalid MCP tool name: " ++ String.mk (String.toList "mcp__git")))
    ∧ (parseMcpName (String.toList "mcp__db__query")
        = .ok (String.toList "db", String.toList "query")
      ∧ echoClients.lookup (String.mk (String.toList "db")) = none
      ∧ managerCallTool echoClients (String.toList "mcp__db__query") Json.null
        = .error ("MCP server '" ++ String.mk (String.toList "db") ++ "' not connected"))
    ∧ (parseMcpName (String.toList "mcp__git__status")
        = .ok (String.toList "git", String.toList "status")
      ∧ managerCallTool echoClients (String.toList "mcp__git__status") Json.null
        = .ok "status") := by
  refine ⟨⟨rfl, ?_⟩, ⟨rfl, rfl, ?_⟩, ⟨rfl, rfl, ?_⟩, ⟨rfl, ?_⟩⟩
  · exact (routing_errors echoClients (String.toList "shell") Json.null).1 rfl
  · exact (routing_errors echoClients (String.toList "mcp__git") Json.null).2.1
      (String.toList "git") rfl rfl
  · exact (routing_errors echoClients (String.toList "mcp__db__query") Json.null).2.2.1
      (String.toList "db") (String.toList "query") rfl rfl
  · have h := (routing_errors echoClients (String.toList "mcp__git__status")
      Json.null).2.2.2 (String.toList "git") (String.toList "status")
      (fun t _ => .ok (String.mk t)) rfl rfl
    exact h.trans rfl

/-- Skippable lines in front of the stream do not affect the read loop. -/
theorem readLoop_skip (name : String) (id : Nat) (pre rest : List RpcLine)
    (hpre : ∀ l ∈ pre, skippableLine id l = true) :
    readLoop name id (pre ++ rest) = readLoop name id rest := by
  induction pre with
  | nil => rfl
  | cons l ls ih =>
    have hl := hpre l (List.mem_cons_self l ls)
    have ih' := ih fun x hx => hpre x (List.mem_cons_of_mem l hx)
    cases l with
    | empty => simpa [readLoop] using ih'
    | invalid raw => simp [skippableLine] at hl
    | msg j =>
      have hne : ¬jsonIdU64 j = some id := by simpa [skippableLine] using hl
      rw [List.cons_append, readLoop, if_neg hne]
      exact ih'

/-- C5 counterexample: with one unparseable (non-JSON) line in front of the
matching response line, the read loop fails on the unparseable line instead
of skipping it and returning the matching result (which it does return when
the stream holds JSON lines only). -/
theorem read_loop_log_line_cex :
    jsonIdU64 goodLine = some 1
    ∧ readLoop "srv" 1 [RpcLine.invalid "starting server", RpcLine.msg goodLine]
      = .error ("invalid JSON line: " ++ "starting server")
    ∧ readLoop "srv" 1 [RpcLine.msg goodLine] = .ok (Json.str "ok") := by
  exact ⟨rfl, rfl, rfl⟩

/-- C5 amended: over a stream whose lines are empty or parse as JSON, the
read loop skips every line not carrying the matching id, returns the result
of the first line whose id matches, surfaces an error-object line as a
failure carrying that payload, and fails with the server-closed error at end
of stream; a non-empty line that does not parse as JSON is instead a hard
decode failure. -/
theorem read_loop_amended (name : String) (id : Nat) (pre rest : List RpcLine)
    (hpre : ∀ l ∈ pre, skippableLine id l = true)
    (j : Json) (hid : jsonIdU64 j = some id) :
    readLoop name id (pre ++ rest) = readLoop name id rest
    ∧ (j.get "error" = none →
        readLoop name id (pre ++ RpcLine.msg j :: rest) = .ok (j.index "result"))
    ∧ (∀ e, j.get "error" = some e →
        readLoop name id (pre ++ RpcLine.msg j :: rest)
          = .error ("MCP error: " ++ e.render))
    ∧ readLoop name id pre
      = .error ("MCP server '" ++ name ++ "' closed connection") := by
  refine ⟨readLoop_skip name id pre rest hpre, ?_, ?_, ?_⟩
  · intro herr
    rw [readLoop_skip name id pre _ hpre, readLoop, if_pos hid, herr]
  · intro e herr
    rw [readLoop_skip name id pre _ hpre, readLoop, if_pos hid, herr]
  · have h := readLoop_skip name id pre [] hpre
    rw [List.append_nil] at h
    rw [h]
    rfl

/-- Witness for amended C5: an empty line and a notification precede the
matching response for id 2. -/
theorem read_loop_amended_witness :
    (∀ l ∈ [RpcLine.empty, RpcLine.msg notifLine], skippableLine 2 l = true)
    ∧ jsonIdU64 goodLine2 = some 2
    ∧ readLoop "srv" 2 ([RpcLine.empty, RpcLine.msg notifLine]
        ++ RpcLine.msg goodLine2 :: []) = .ok (Json.str "done")
    ∧ readLoop "srv" 2 [RpcLine.empty, RpcLine.msg notifLine]
      = .error ("MCP server '" ++ "srv" ++ "' closed connection") := by
  have hpre : ∀ l ∈ [RpcLine.empty, RpcLine.msg notifLine], skippableLine 2 l = true := by
    intro l hl
    simp only [List.mem_cons, List.not_mem_nil, or_false] at hl
    rcases hl with rfl | rfl
    · rfl
    · rfl
  have h := read_loop_amended "srv" 2 [RpcLine.empty, RpcLine.msg notifLine] []
    hpre goodLine2 rfl
  exact ⟨hpre, rfl, (h.2.1 rfl).trans rfl, h.2.2.2⟩

/-- The ids of the collected tool calls are the ToolUse ids of the response
blocks, in order. -/
theorem toolCallsOf_map_fst (blocks : List ContentBlock) :
    (toolCallsOf blocks).map (fun c => c.1)
      = blocks.filterMap (fun b =>
          match b with
          | ContentBlock.toolUse id _ _ => some id
          | _ => none) := by
  induction blocks with
  | nil => rfl
  | cons b bs ih =>
    cases b with
    | text t => simpa [toolCallsOf, List.filterMap_cons] using ih
    | toolUse id name input => simpa [toolCallsOf, List.filterMap_cons] using ih
    | toolResult tid c ie => simpa [toolCallsOf, List.filterMap_cons] using ih

/-- The tool_use_id references of the built results are the call ids, in
order. -/
theorem runToolCalls_resultIds (run : String → Except String BashOutput)
    (calls : List (String × String × Json)) :
    (runToolCalls run calls).filterMap (fun b =>
        match b with
        | ContentBlock.toolResult tid _ _ => some tid
        | _ => none)
      = calls.map (fun c => c.1) := by
  induction calls with
  | nil => rfl
  | cons c cs ih =>
    cases h : toolsExecute run c.2.1 c.2.2 <;>
      simp [runToolCalls, List.filterMap_cons, h] at ih ⊢ <;> exact ih

/-- Every built block is a ToolResult block. -/
theorem runToolCalls_all_results (run : String → Except String BashOutput)
    (calls : List (String × String × Json)) :
    ∀ b ∈ runToolCalls run calls, isToolResultBlock b = true := by
  intro b hb
  simp only [runToolCalls, List.mem_map] at hb
  obtain ⟨c, hc, hbc⟩ := hb
  cases h : toolsExecute run c.2.1 c.2.2 <;> rw [h] at hbc <;>
    rw [← hbc] <;> rfl

/-- A message of blocks none of which is a ToolResult is not
ToolResult-only. -/
theorem assistant_not_toolResultOnly (r : String) (bs : List ContentBlock)
    (h : noToolResultBlocks bs = true) :
    toolResultOnly ⟨r, .blocks bs⟩ = false := by
  cases bs with
  | nil => rfl
  | cons x xs =>
    have hx : isToolResultBlock x = false := by
      simp only [noToolResultBlocks, List.all_cons, Bool.and_eq_true,
        Bool.not_eq_true'] at h
      exact h.1
    simp [toolResultOnly, List.all_cons, hx]

/-- The user message of results for a non-empty call list is
ToolResult-only. -/
theorem results_toolResultOnly (run : String → Except String BashOutput)
    (calls : List (String × String × Json)) (h : calls.isEmpty = false) :
    toolResultOnly ⟨"user", .blocks (runToolCalls run calls)⟩ = true := by
  cases calls with
  | nil => simp at h
  | cons c cs =>
    have hall : (runToolCalls run (c :: cs)).all isToolResultBlock = true := by
      rw [List.all_eq_true]
      exact runToolCalls_all_results run (c :: cs)
    have hne : (runToolCalls run (c :: cs)).isEmpty = false := by
      simp [runToolCalls]
    simp [toolResultOnly, hall, hne]

/-- The empty conversation satisfies the adjacency invariant. -/
theorem adjacencyOK_nil : adjacencyOK [] := by
  intro i m h htr
  simp at h

/-- Appending a block of messages that satisfies the invariant on its own
preserves the invariant of the whole conversation. -/
theorem adjacencyOK_append (a b : List Message)
    (ha : adjacencyOK a) (hb : adjacencyOK b) : adjacencyOK (a ++ b) := by
  intro i m hget htr
  by_cases hi : i < a.length
  · rw [List.getElem?_append_left hi] at hget
    obtain ⟨hpos, p, hp, hids⟩ := ha i m hget htr
    refine ⟨hpos, p, ?_, hids⟩
    rw [List.getElem?_append_left (by omega)]
    exact hp
  · push_neg at hi
    rw [List.getElem?_append_right hi] at hget
    obtain ⟨hpos, p, hp, hids⟩ := hb (i - a.length) m hget htr
    refine ⟨by omega, p, ?_, hids⟩
    rw [List.getElem?_append_right (by omega),
      show i - 1 - a.length = i - a.length - 1 by omega]
    exact hp

/-- The messages appended by one iteration satisfy the adjacency invariant
on their own, provided the response carries no ToolResult block. -/
theorem iterAppends_adjacency (run : String → Except String BashOutput)
    (blocks : List ContentBlock) (pending : List String)
    (hblocks : noToolResultBlocks blocks = true) :
    adjacencyOK (iterAppends run blocks pending) := by
  have hassist := assistant_not_toolResultOnly "assistant" blocks hblocks
  by_cases hcalls : (toolCallsOf blocks).isEmpty = true
  · intro i m hget htr
    simp only [iterAppends, if_pos hcalls] at hget
    rcases i with _ | i
    · simp only [List.getElem?_cons_zero, Option.some.injEq] at hget
      rw [← hget, hassist] at htr
      exact absurd htr (by simp)
    · simp at hget
  · have hcalls' : (toolCallsOf blocks).isEmpty = false := by
      cases h : (toolCallsOf blocks).isEmpty
      · rfl
      · exact absurd h hcalls
    have huser := results_toolResultOnly run (toolCallsOf blocks) hcalls'
    have hids : msgToolUseIds ⟨"assistant", .blocks blocks⟩
        = msgToolResultIds
            ⟨"user", .blocks (runToolCalls run (toolCallsOf blocks))⟩ :=
      ((runToolCalls_resultIds run (toolCallsOf blocks)).trans
        (toolCallsOf_map_fst blocks)).symm
    intro i m hget htr
    simp only [iterAppends, if_neg hcalls, List.cons_append, List.nil_append] at hget
    by_cases hp : pending.isEmpty
    · simp only [if_pos hp, List.append_nil] at hget
      rcases i with _ | _ | i
      · simp only [List.getElem?_cons_zero, Option.some.injEq] at hget
        rw [← hget, hassist] at htr
        exact absurd htr (by simp)
      · simp only [List.getElem?_cons_succ, List.getElem?_cons_zero,
          Option.some.injEq] at hget
        exact ⟨by omega, ⟨"assistant", .blocks blocks⟩,
          by simp [iterAppends, hcalls'], by rw [← hget]; exact hids⟩
      · simp at hget
    · simp only [if_neg hp] at hget
      rcases i with _ | _ | _ | i
      · simp only [List.getElem?_cons_zero, Option.some.injEq] at hget
        rw [← hget, hassist] at htr
        exact absurd htr (by simp)
      · simp only [List.getElem?_cons_succ, List.getElem?_cons_zero,
          Option.some.injEq] at hget
        exact ⟨by omega, ⟨"assistant", .blocks blocks⟩,
          by simp [iterAppends, hcalls'], by rw [← hget]; exact hids⟩
      · simp only [List.getElem?_cons_succ, List.getElem?_cons_zero,
          Option.some.injEq] at hget
        rw [← hget] at htr
        simp [toolResultOnly] at htr
      · simp at hget

/-- Conversations built by the loop from an invariant-satisfying start
satisfy the adjacency invariant. -/
theorem runConv_adjacency (run : String → Except String BashOutput)
    (iters : List AgentIter) (init : List Message)
    (hinit : adjacencyOK init)
    (hiters : ∀ it ∈ iters, noToolResultBlocks it.blocks = true) :
    adjacencyOK (runConv run init iters) := by
  revert hinit hiters
  induction iters generalizing init with
  | nil => intro hinit _; exact hinit
  | cons it rest ih =>
    intro hinit hiters
    exact ih (init ++ iterAppends run it.blocks it.pending)
      (adjacencyOK_append init _ hinit
        (iterAppends_adjacency run it.blocks it.pending
          (hiters it (List.mem_cons_self it rest))))
      (fun x hx => hiters x (List.mem_cons_of_mem it hx))

/-- C1: an iteration with at least one ToolUse block appends the assistant
message holding all response blocks in order, immediately followed by one
user message holding exactly one ToolResult per ToolUse with tool_use_ids
equal to the ToolUse ids in the same order (then only the optional drained
user text); hence every conversation the loop builds satisfies the adjacency
invariant. -/
theorem agent_loop_adjacency (run : String → Except String BashOutput)
    (blocks : List ContentBlock) (pending : List String)
    (hcalls : (toolCallsOf blocks).isEmpty = false)
    (init : List Message) (iters : List AgentIter)
    (hinit : adjacencyOK init)
    (hiters : ∀ it ∈ iters, noToolResultBlocks it.blocks = true) :
    iterAppends run blocks pending
      = ⟨"assistant", .blocks blocks⟩
        :: ⟨"user", .blocks (runToolCalls run (toolCallsOf blocks))⟩
        :: (if pending.isEmpty then []
            else [⟨"user", .text (String.intercalate "\n\n" pending)⟩])
    ∧ (runToolCalls run (toolCallsOf blocks)).length = (toolCallsOf blocks).length
    ∧ (∀ b ∈ runToolCalls run (toolCallsOf blocks), isToolResultBlock b = true)
    ∧ msgToolResultIds ⟨"user", .blocks (runToolCalls run (toolCallsOf blocks))⟩
      = msgToolUseIds ⟨"assistant", .blocks blocks⟩
    ∧ adjacencyOK (runConv run init iters) := by
  refine ⟨?_, by simp [runToolCalls], runToolCalls_all_results run _, ?_,
    runConv_adjacency run iters init hinit hiters⟩
  · simp [iterAppends, hcalls]
  · exact (runToolCalls_resultIds run (toolCallsOf blocks)).trans
      (toolCallsOf_map_fst blocks)

/-- Witness for C1 at a concrete turn with one text block and one bash
ToolUse, continuing an empty conversation. -/
theorem agent_loop_adjacency_witness :
    (toolCallsOf sampleBlocks).isEmpty = false
    ∧ adjacencyOK []
    ∧ (∀ it ∈ [AgentIter.mk sampleBlocks []],
        noToolResultBlocks it.blocks = true)
    ∧ msgToolResultIds
        ⟨"user", .blocks (runToolCalls quietRun (toolCallsOf sampleBlocks))⟩
      = msgToolUseIds ⟨"assistant", .blocks sampleBlocks⟩
    ∧ adjacencyOK (runConv quietRun [] [AgentIter.mk sampleBlocks []]) := by
  have hiters : ∀ it ∈ [AgentIter.mk sampleBlocks []],
      noToolResultBlocks it.blocks = true := by
    intro it hit
    simp only [List.mem_cons, List.not_mem_nil, or_false] at hit
    subst hit
    rfl
  have h := agent_loop_adjacency quietRun sampleBlocks [] rfl []
    [AgentIter.mk sampleBlocks []] adjacencyOK_nil hiters
  exact ⟨rfl, adjacencyOK_nil, hiters, h.2.2.2.1, h.2.2.2.2⟩

end Mash
